import Mathlib

/-!
Verification of the operational-presence pipeline core
(hdx-scraper-operationalpresence).

The Lean definitions below are shallow embeddings of the Python sources:
  - mappings.py   : get_code_from_name (generic name to code resolver)
  - org.py        : OrgInfo / OrgData, Org.populate, Org.get_org_info,
                    Org.add_or_match_org
  - pipeline.py   : date tracking in Pipeline.preprocess_country, the
                    output-row construction and keyed-map deduplication in
                    Pipeline.process_country, and the per-country loop with
                    exception isolation in Pipeline.process.

Python dicts are modelled as insertion-ordered association lists with
update-in-place semantics (dget / dset).  External collaborators
(text normalisation, phonetic matching, admin-hierarchy resolution,
date parsing) are passed in as function parameters, mirroring how the
source delegates to library code outside this repository.
-/

namespace OpPresence

/-- Lookup in an insertion-ordered association list (Python dict `get`). -/
def dget {κ ν : Type} [DecidableEq κ] : List (κ × ν) → κ → Option ν
  | [], _ => none
  | p :: rest, k => if p.1 = k then some p.2 else dget rest k

/-- Update in an insertion-ordered association list (Python dict assignment):
an existing key keeps its position, a new key is appended at the end. -/
def dset {κ ν : Type} [DecidableEq κ] : List (κ × ν) → κ → ν → List (κ × ν)
  | [], k, v => [(k, v)]
  | p :: rest, k, v => if p.1 = k then (k, v) :: rest else p :: dset rest k v

theorem dget_dset {κ ν : Type} [DecidableEq κ] (d : List (κ × ν)) (a b : κ) (v : ν) :
    dget (dset d a v) b = if b = a then some v else dget d b := by
  induction d with
  | nil =>
    by_cases h : b = a
    · simp [dget, dset, h]
    · have h' : ¬ a = b := fun hh => h hh.symm
      simp [dget, dset, h, h']
  | cons p rest ih =>
    by_cases hpa : p.1 = a
    · by_cases hba : b = a
      · simp [dget, dset, hpa, hba]
      · have hab : ¬ a = b := fun hh => hba hh.symm
        simp [dget, dset, hpa, hba, hab]
    · by_cases hpb : p.1 = b
      · have hba : ¬ b = a := fun h => hpa (hpb.trans h)
        simp [dget, dset, hpa, hpb, hba]
      · simp [dget, dset, hpa, hpb, ih]

theorem dget_dset_self {κ ν : Type} [DecidableEq κ] (d : List (κ × ν)) (a : κ) (v : ν) :
    dget (dset d a v) a = some v := by
  simp [dget_dset]

theorem mem_dset {κ ν : Type} [DecidableEq κ] (d : List (κ × ν)) (a : κ) (v : ν)
    (p : κ × ν) (hp : p ∈ dset d a v) : p = (a, v) ∨ p ∈ d := by
  induction d with
  | nil =>
    simp [dset] at hp
    exact Or.inl hp
  | cons q rest ih =>
    by_cases hq : q.1 = a
    · simp [dset, hq] at hp
      rcases hp with h | h
      · exact Or.inl h
      · exact Or.inr (List.mem_cons_of_mem _ h)
    · simp [dset, hq] at hp
      rcases hp with h | h
      · exact Or.inr (by simp [h])
      · rcases ih h with h' | h'
        · exact Or.inl h'
        · exact Or.inr (List.mem_cons_of_mem _ h')

theorem dget_mem {κ ν : Type} [DecidableEq κ] (d : List (κ × ν)) (k : κ) (v : ν)
    (h : dget d k = some v) : (k, v) ∈ d := by
  induction d with
  | nil => simp [dget] at h
  | cons p rest ih =>
    by_cases hp : p.1 = k
    · simp [dget, hp] at h
      have hpkv : p = (k, v) := by
        cases p
        simp_all
      simp [hpkv]
    · simp [dget, hp] at h
      exact List.mem_cons_of_mem _ (ih h)

theorem dget_isSome_of_key {κ ν : Type} [DecidableEq κ] (d : List (κ × ν)) (k : κ)
    (h : k ∈ d.map Prod.fst) : (dget d k).isSome := by
  induction d with
  | nil => simp at h
  | cons p rest ih =>
    by_cases hp : p.1 = k
    · simp [dget, hp]
    · simp at h
      rcases h with h | h
      · exact absurd h.symm hp
      · simp [dget, hp]
        exact ih (by simpa using h)

/-! ## mappings.py -/

/-- mappings.py line 6. -/
def MATCH_THRESHOLD : Nat := 5

/-- Python truthiness of an optional string: `None` and the empty string are
falsy, everything else is truthy. -/
def truthy : Option String → Bool
  | none => false
  | some s => decide (s ≠ "")

/-- Result of one call to `get_code_from_name`: the returned code
(`none` models Python `None`; `some ""` models the falsy string return on
a fuzzy hit whose stored code is empty), the vocabulary and the unmatched
list after the call, and whether the phonetic matcher was invoked. -/
structure GCNResult where
  code : Option String
  lookup : List (String × String)
  unmatched : List String
  fuzzyInvoked : Bool
  deriving DecidableEq

/-- mappings.py lines 26-73, `get_code_from_name`.  `normalise` models
hdx.utilities.text.normalise and `phonetics_match` models
Phonetics().match from hdx.location.phonetics (both external libraries). -/
def get_code_from_name (normalise : String → String)
    (phonetics_match : List String → String → String → Option Nat)
    (code_lookup : List (String × String)) (unmatched : List String)
    (name : String) (fuzzy_match : Bool) : GCNResult :=
  let code0 := dget code_lookup name
  if truthy code0 then ⟨code0, code_lookup, unmatched, false⟩
  else if name ∈ unmatched then ⟨none, code_lookup, unmatched, false⟩
  else
    let name_clean := normalise name
    let code1 := dget code_lookup name_clean
    if truthy code1 then
      ⟨code1, dset code_lookup name (code1.getD ""), unmatched, false⟩
    else if name.length ≤ MATCH_THRESHOLD then
      ⟨none, code_lookup, unmatched ++ [name], false⟩
    else if fuzzy_match = false then
      ⟨none, code_lookup, unmatched ++ [name], false⟩
    else
      let names := (code_lookup.map Prod.fst).filter
        (fun x => decide (MATCH_THRESHOLD < x.length))
      match phonetics_match names name name_clean with
      | none => ⟨none, code_lookup, unmatched ++ [name], true⟩
      | some name_index =>
        let code2 := dget code_lookup (names.getD name_index "")
        if truthy code2 then
          ⟨code2,
           dset (dset code_lookup name (code2.getD "")) name_clean (code2.getD ""),
           unmatched, true⟩
        else ⟨code2, code_lookup, unmatched, true⟩

/-! ## org.py -/

/-- org.py lines 17-25, dataclass OrgInfo.  `normalised_acronym` is
`Option String` because `Org.populate` stores Python `None` there when the
reference row has no acronym, while `Org.get_org_info` stores `""`
(modelled as `some ""`). -/
structure OrgInfo where
  canonical_name : String
  normalised_name : String
  acronym : String
  normalised_acronym : Option String
  type_code : String
  complete : Bool
  used : Bool
  deriving DecidableEq

/-- org.py lines 28-31, NamedTuple OrgData. -/
structure OrgData where
  acronym : String
  name : String
  type_code : String
  deriving DecidableEq

/-- org.py lines 35-41, the class attribute Org.blank_org_info. -/
def blank_org_info : OrgInfo :=
  { canonical_name := "", normalised_name := "", acronym := "",
    normalised_acronym := some "", type_code := "", complete := false,
    used := false }

/-- The `Org._org_map` dictionary: keyed by (country-code-or-None,
lookup-string-or-None). -/
abbrev OrgMapT := List ((Option String × Option String) × OrgInfo)

/-- The `Org.data` dictionary: keyed by (normalised acronym, normalised
name). -/
abbrev OrgDataMapT := List ((Option String × String) × OrgData)

/-- One row of the organization reference table consumed by
`Org.populate` (org.py lines 65-78).  `org_name` models
`row["#org+name"]` with Python `None` collapsed to `""` (both are falsy
in the emptiness check), `country_code` models `row["#country+code"]`
(None for globally scoped rows), `acronym` models `row["#org+acronym"]`,
`x_pattern` models `row["#x_pattern"]` and `type_code` models
`row["#org+type+code"]`. -/
structure RefRow where
  org_name : String
  country_code : Option String
  acronym : String
  x_pattern : String
  type_code : String
  deriving DecidableEq

/-- org.py lines 65-96, the loop body of `Org.populate`: a row with an
empty canonical name is skipped entirely, otherwise the row's OrgInfo is
inserted under its six lookup keys. -/
def populate_row (normalise : String → String) (m : OrgMapT) (row : RefRow) :
    OrgMapT :=
  if row.org_name = "" then m
  else
    let normalised_name := normalise row.org_name
    let normalised_acronym : Option String :=
      if row.acronym ≠ "" then some (normalise row.acronym) else none
    let org_info : OrgInfo :=
      { canonical_name := row.org_name, normalised_name := normalised_name,
        acronym := row.acronym, normalised_acronym := normalised_acronym,
        type_code := row.type_code,
        complete := decide (row.acronym ≠ "" ∧ row.type_code ≠ ""),
        used := false }
    let m1 := dset m (row.country_code, some row.org_name) org_info
    let m2 := dset m1 (row.country_code, some normalised_name) org_info
    let m3 := dset m2 (row.country_code, some row.acronym) org_info
    let m4 := dset m3 (row.country_code, normalised_acronym) org_info
    let m5 := dset m4 (row.country_code, some row.x_pattern) org_info
    dset m5 (row.country_code, some (normalise row.x_pattern)) org_info

/-- org.py lines 54-96, `Org.populate` over the whole reference table,
starting from the empty map created in `Org.__init__`. -/
def populate (normalise : String → String) (rows : List RefRow) : OrgMapT :=
  rows.foldl (populate_row normalise) []

/-- org.py lines 98-124, `Org.get_org_info`: four lookups in order, then
lazy creation of an incomplete OrgInfo.  Returns the found/created
OrgInfo together with the updated map. -/
def get_org_info (normalise : String → String) (m : OrgMapT)
    (org_str : String) (location : String) : OrgInfo × OrgMapT :=
  let key : Option String × Option String := (some location, some org_str)
  match dget m key with
  | some org_info => (org_info, m)
  | none =>
    let normalised_str := normalise org_str
    match dget m (some location, some normalised_str) with
    | some org_info => (org_info, dset m key org_info)
    | none =>
      match dget m (none, some org_str) with
      | some org_info => (org_info, dset m key org_info)
      | none =>
        match dget m (none, some normalised_str) with
        | some org_info => (org_info, dset m key org_info)
        | none =>
          let org_info : OrgInfo :=
            { canonical_name := org_str, normalised_name := normalised_str,
              acronym := "", normalised_acronym := some "", type_code := "",
              complete := false, used := false }
          (org_info, dset m key org_info)

/-- org.py lines 152-154, the tail of `Org.add_or_match_org`: set
`complete` when both acronym and type code are truthy, and mark the
identity as used. -/
def finalize_org_info (oi : OrgInfo) : OrgInfo :=
  let oi1 := if oi.acronym ≠ "" ∧ oi.type_code ≠ "" then
    { oi with complete := true } else oi
  { oi1 with used := true }

/-- org.py lines 130-155, `Org.add_or_match_org`: returns the mutated
identity, the returned OrgData and the updated `data` map. -/
def add_or_match_org (data : OrgDataMapT) (org_info : OrgInfo) :
    OrgInfo × OrgData × OrgDataMapT :=
  let key := (org_info.normalised_acronym, org_info.normalised_name)
  match dget data key with
  | some org_data =>
    if org_data.type_code = "" ∧ org_info.type_code ≠ "" then
      let org_data1 : OrgData :=
        ⟨org_data.acronym, org_data.name, org_info.type_code⟩
      let oi1 := { org_info with
        acronym := org_data.acronym
        canonical_name := org_data.name }
      (finalize_org_info oi1, org_data1, dset data key org_data1)
    else
      let oi1 := { org_info with
        type_code := org_data.type_code
        acronym := org_data.acronym
        canonical_name := org_data.name }
      (finalize_org_info oi1, org_data, data)
  | none =>
    let org_data : OrgData :=
      ⟨org_info.acronym, org_info.canonical_name, org_info.type_code⟩
    (finalize_org_info org_info, org_data, dset data key org_data)

/-! ## pipeline.py: date tracking in preprocess_country -/

/-- A parsed datetime, reduced to what the tracking logic inspects: a
totally ordered absolute value (`absd`, e.g. yyyymmdd) and the year. -/
structure PDate where
  absd : Nat
  year : Nat
  deriving DecidableEq

/-- hdx.utilities.dateparse.default_date (datetime(1, 1, 1)). -/
def default_date : PDate := ⟨10101, 1⟩

/-- hdx.utilities.dateparse.default_enddate (datetime(9999, 12, 31)). -/
def default_enddate : PDate := ⟨99991231, 9999⟩

/-- pipeline.py lines 298-310, the start-date tracking in one iteration of
`Pipeline.preprocess_country`: an empty cell is skipped, an unparseable
value or a parsed year before 2000 is ignored (the raise inside the try
block lands in the same except handler), otherwise the running earliest
start date is lowered.  `parse` models
hdx.utilities.dateparse.parse_date with `none` for ParserError. -/
def track_start_date (parse : String → Option PDate) (earliest : PDate)
    (v : String) : PDate :=
  if v = "" then earliest
  else
    match parse v with
    | none => earliest
    | some d =>
      if d.year < 2000 then earliest
      else if d.absd < earliest.absd then d else earliest

/-- pipeline.py lines 311-321, the end-date tracking in one iteration of
`Pipeline.preprocess_country`: an empty cell is skipped, an unparseable
value is ignored, otherwise the running latest end date is raised.
There is no year guard on this side. -/
def track_end_date (parse : String → Option PDate) (latest : PDate)
    (v : String) : PDate :=
  if v = "" then latest
  else
    match parse v with
    | none => latest
    | some d => if latest.absd < d.absd then d else latest

/-- The earliest start date tracked over a run of rows, starting from
default_enddate (pipeline.py lines 275-276). -/
def earliest_start_date (parse : String → Option PDate)
    (vals : List String) : PDate :=
  vals.foldl (track_start_date parse) default_enddate

/-- The latest end date tracked over a run of rows, starting from
default_date (pipeline.py lines 279-280). -/
def latest_end_date (parse : String → Option PDate)
    (vals : List String) : PDate :=
  vals.foldl (track_end_date parse) default_date

/-- Which date a cell contributes under the code's start-date rule:
non-empty, parseable, year 2000 or later. -/
def start_date_filter (parse : String → Option PDate) (v : String) :
    Option PDate :=
  if v = "" then none
  else
    match parse v with
    | none => none
    | some d => if d.year < 2000 then none else some d

/-- Which date a cell contributes under the code's end-date rule:
non-empty and parseable (no year guard). -/
def end_date_filter (parse : String → Option PDate) (v : String) :
    Option PDate :=
  if v = "" then none
  else
    match parse v with
    | none => none
    | some d => some d

/-- The start-date values the code lets participate in tracking. -/
def valid_start_dates (parse : String → Option PDate)
    (vals : List String) : List PDate :=
  vals.filterMap (start_date_filter parse)

/-- The end-date values the code lets participate in tracking. -/
def parseable_end_dates (parse : String → Option PDate)
    (vals : List String) : List PDate :=
  vals.filterMap (end_date_filter parse)

/-- The end-date values the spec sentence says participate: non-empty,
parseable and year 2000 or later.  This follows the spec words, for
comparison with the code's `parseable_end_dates`. -/
def claimed_valid_end_dates (parse : String → Option PDate)
    (vals : List String) : List PDate :=
  vals.filterMap (start_date_filter parse)

/-- One step of taking the earlier of two dates, as the code compares
them (strictly-less keeps the newcomer). -/
def minStep (a d : PDate) : PDate := if d.absd < a.absd then d else a

/-- One step of taking the later of two dates. -/
def maxStep (a d : PDate) : PDate := if a.absd < d.absd then d else a

/-- The latest end date as the spec sentence describes it: the maximum
over the parseable, year-2000-or-later values. -/
def claimed_latest_end (parse : String → Option PDate)
    (vals : List String) : PDate :=
  (claimed_valid_end_dates parse vals).foldl maxStep default_date

/-! ## pipeline.py: process_country output rows and deduplication -/

/-- row.py lines 4-26, the output NamedTuple Row. -/
structure Row where
  location_code : String
  has_hrp : String
  in_gho : String
  provider_admin1_name : String
  provider_admin2_name : String
  admin1_code : String
  admin1_name : String
  admin2_code : String
  admin2_name : String
  admin_level : Nat
  org_name : String
  org_acronym : String
  org_type_description : String
  sector_code : String
  sector_name : String
  reference_period_start : String
  reference_period_end : String
  dataset_id : String
  resource_id : String
  warning : String
  error : String
  deriving DecidableEq

/-- A preprocessed row as `Pipeline.process_country` consumes it: the
fields the production loop reads back out of the row dict (the org name
and acronym cells, the sector cell rewritten to a code or `""` by the
preprocess pass, and the Warning/Error lists attached there). -/
structure PRow where
  org_name : String
  org_acronym : String
  sector : String
  warning : List String
  error : List String
  deriving DecidableEq

/-- What `Pipeline.get_adm_info` hands back for one row: provider admin
names, admin codes, admin names, the resolved admin level, and the
warnings it appends to the row.  The resolution itself delegates to
complete_admins from hdx.scraper.framework (external), so it is a
parameter of the production pass. -/
structure AdmInfo where
  provider_adm_names : List String
  adm_codes : List String
  adm_names : List String
  adm_level : Nat
  warnings : List String
  deriving DecidableEq

/-- The per-country constants and external collaborators of
`Pipeline.process_country`: normalisation, admin resolution, org-type
description and sector-name lookup, HRP/GHO status of the country, and
the dataset-level strings. -/
structure ProcCtx where
  normalise : String → String
  admResolve : PRow → AdmInfo
  orgTypeDesc : String → String
  sectorName : String → String
  hrp : Bool
  gho : Bool
  countryiso3 : String
  start_date_str : String
  end_date_str : String
  dataset_id : String
  resource_id : String

/-- The deduplication key of pipeline.py lines 480-490: the 9-tuple
(country, provider admin-1 name, provider admin-2 name, admin-1 code,
admin-2 code, org acronym, org canonical name, sector code, period
start). -/
structure OutKey where
  countryiso3 : String
  provider_admin1_name : String
  provider_admin2_name : String
  admin1_code : String
  admin2_code : String
  org_acronym : String
  org_canonical_name : String
  sector_code : String
  period_start : String
  deriving DecidableEq

/-- pipeline.py lines 451-514, the body of the production loop for one
row: sector code from the rewritten sector cell, org identity via
`get_org_info` (falling back to the acronym cell, or to the blank
identity when both cells are empty), admin info via `get_adm_info`,
level capping/padding, then the key and the output Row.  List indices
`[0]`/`[1]` are modelled with `getD _ ""` since `pad_admins` (external)
pads the lists with `""`. -/
def process_row (ctx : ProcCtx) (om : OrgMapT) (row : PRow) :
    (OutKey × Row) × OrgMapT :=
  let sector_code := row.sector
  let org_str0 := row.org_name
  let org_str := if org_str0 = "" then row.org_acronym else org_str0
  let org_res :=
    if org_str = "" then (blank_org_info, om)
    else get_org_info ctx.normalise om org_str ctx.countryiso3
  let org_info := org_res.1
  let a := ctx.admResolve row
  let adm_level := if 2 < a.adm_level then 2 else a.adm_level
  let key : OutKey :=
    ⟨ctx.countryiso3, a.provider_adm_names.getD 0 "",
     a.provider_adm_names.getD 1 "", a.adm_codes.getD 0 "",
     a.adm_codes.getD 1 "", org_info.acronym, org_info.canonical_name,
     sector_code, ctx.start_date_str⟩
  let out : Row :=
    { location_code := ctx.countryiso3
      has_hrp := if ctx.hrp then "Y" else "N"
      in_gho := if ctx.gho then "Y" else "N"
      provider_admin1_name := a.provider_adm_names.getD 0 ""
      provider_admin2_name := a.provider_adm_names.getD 1 ""
      admin1_code := a.adm_codes.getD 0 ""
      admin1_name := a.adm_names.getD 0 ""
      admin2_code := a.adm_codes.getD 1 ""
      admin2_name := a.adm_names.getD 1 ""
      admin_level := adm_level
      org_name := org_info.acronym
      org_acronym := org_info.canonical_name
      org_type_description := ctx.orgTypeDesc org_info.type_code
      sector_code := sector_code
      sector_name := ctx.sectorName sector_code
      reference_period_start := ctx.start_date_str
      reference_period_end := ctx.end_date_str
      dataset_id := ctx.dataset_id
      resource_id := ctx.resource_id
      warning := String.intercalate "|" (row.warning ++ a.warnings)
      error := String.intercalate "|" row.error }
  ((key, out), org_res.2)

/-- The ordered trace of (key, record) pairs the production loop emits,
threading the org map through the rows. -/
def process_trace (ctx : ProcCtx) (om : OrgMapT) :
    List PRow → List (OutKey × Row) × OrgMapT
  | [] => ([], om)
  | row :: rest =>
    let step := process_row ctx om row
    let tail := process_trace ctx step.2 rest
    (step.1 :: tail.1, tail.2)

/-- pipeline.py lines 449-514: the `output_rows` dict built by
`Pipeline.process_country` is exactly the last-write-wins keyed
insertion of the trace. -/
def process_country_rows (ctx : ProcCtx) (om : OrgMapT) (rows : List PRow) :
    List (OutKey × Row) × OrgMapT :=
  let t := process_trace ctx om rows
  (t.1.foldl (fun d p => dset d p.1 p.2) [], t.2)

/-- The record held by the last trace entry carrying a given key. -/
def lastWins {κ ν : Type} [DecidableEq κ] (l : List (κ × ν)) (k : κ) :
    Option ν :=
  (l.reverse.find? (fun p => decide (p.1 = k))).map Prod.snd

/-- Left-biased choice on options. -/
def oor {ν : Type} : Option ν → Option ν → Option ν
  | some v, _ => some v
  | none, o => o

/-! ## pipeline.py: the per-country loop of Pipeline.process -/

/-- The slice of a country's `datasetinfo` that the exception handler in
`Pipeline.process` reads: the dataset name the diagnostic is attributed
to. -/
structure DSInfo where
  dataset : String
  deriving DecidableEq

/-- Outcome of one `Pipeline.preprocess_country` call: normal return
with a success flag, or a raised exception with its message; either way
the shared mutable state (resolver caches etc.) advances. -/
inductive PreOutcome (σ : Type) where
  | ok : Bool → σ → PreOutcome σ
  | exn : String → σ → PreOutcome σ
  deriving DecidableEq

/-- pipeline.py lines 525-529: the optional country filter. -/
def passes (toProcess : Option (List String)) (c : String) : Bool :=
  match toProcess with
  | none => true
  | some l => decide (c ∈ l)

/-- pipeline.py lines 524-541, the preprocessing loop of
`Pipeline.process`: for each country in the sheet, apply the filter,
fetch the datasetinfo, run preprocessing; a raised exception is caught,
recorded as a diagnostic (dataset name, message) and the country is not
added to `_iso3_to_datasetinfo`; the loop then continues.  Returns the
final shared state, the recorded diagnostics in order, and the
`_iso3_to_datasetinfo` entries in order. -/
def process_loop {σ : Type} (pre : σ → String → PreOutcome σ)
    (getinfo : String → Option DSInfo) (tp : Option (List String)) :
    σ → List String → σ × List (String × String) × List (String × DSInfo)
  | s, [] => (s, [], [])
  | s, c :: cs =>
    if passes tp c then
      match getinfo c with
      | none => process_loop pre getinfo tp s cs
      | some di =>
        match pre s c with
        | PreOutcome.ok true s1 =>
          let r := process_loop pre getinfo tp s1 cs
          (r.1, r.2.1, (c, di) :: r.2.2)
        | PreOutcome.ok false s1 => process_loop pre getinfo tp s1 cs
        | PreOutcome.exn m s1 =>
          let r := process_loop pre getinfo tp s1 cs
          (r.1, (di.dataset, m) :: r.2.1, r.2.2)
    else process_loop pre getinfo tp s cs

/-! ## Helper lemmas about add_or_match_org -/

theorem finalize_acronym (oi : OrgInfo) :
    (finalize_org_info oi).acronym = oi.acronym := by
  unfold finalize_org_info
  split <;> rfl

theorem finalize_canonical (oi : OrgInfo) :
    (finalize_org_info oi).canonical_name = oi.canonical_name := by
  unfold finalize_org_info
  split <;> rfl

theorem finalize_type_code (oi : OrgInfo) :
    (finalize_org_info oi).type_code = oi.type_code := by
  unfold finalize_org_info
  split <;> rfl

theorem aomo_eq_found_update (data : OrgDataMapT) (oi : OrgInfo) (od : OrgData)
    (h : dget data (oi.normalised_acronym, oi.normalised_name) = some od)
    (hc : od.type_code = "" ∧ oi.type_code ≠ "") :
    add_or_match_org data oi =
      (finalize_org_info
        { oi with acronym := od.acronym, canonical_name := od.name },
       ⟨od.acronym, od.name, oi.type_code⟩,
       dset data (oi.normalised_acronym, oi.normalised_name)
         ⟨od.acronym, od.name, oi.type_code⟩) := by
  simp only [add_or_match_org, h]
  rw [if_pos hc]

theorem aomo_eq_found_keep (data : OrgDataMapT) (oi : OrgInfo) (od : OrgData)
    (h : dget data (oi.normalised_acronym, oi.normalised_name) = some od)
    (hc : ¬ (od.type_code = "" ∧ oi.type_code ≠ "")) :
    add_or_match_org data oi =
      (finalize_org_info
        { oi with
          type_code := od.type_code
          acronym := od.acronym
          canonical_name := od.name },
       od, data) := by
  simp only [add_or_match_org, h]
  rw [if_neg hc]

theorem aomo_eq_new (data : OrgDataMapT) (oi : OrgInfo)
    (h : dget data (oi.normalised_acronym, oi.normalised_name) = none) :
    add_or_match_org data oi =
      (finalize_org_info oi,
       ⟨oi.acronym, oi.canonical_name, oi.type_code⟩,
       dset data (oi.normalised_acronym, oi.normalised_name)
         ⟨oi.acronym, oi.canonical_name, oi.type_code⟩) := by
  simp only [add_or_match_org, h]

/-- C3: once the OrgData stored under a (normalised acronym, normalised
name) key has a non-empty type code, any further `add_or_match_org` call
whose identity maps to that key leaves the `data` map unchanged (so the
stored type code is never overwritten) and pushes the stored type code
onto the identity; the stored entry is only ever rewritten when its type
code was empty. -/
theorem add_or_match_org_sticky_type (data : OrgDataMapT) (org_info : OrgInfo)
    (od : OrgData)
    (h1 : dget data (org_info.normalised_acronym, org_info.normalised_name) =
      some od)
    (h2 : od.type_code ≠ "") :
    (add_or_match_org data org_info).2.2 = data ∧
    (add_or_match_org data org_info).1.type_code = od.type_code := by
  have hc : ¬ (od.type_code = "" ∧ org_info.type_code ≠ "") := fun h => h2 h.1
  rw [aomo_eq_found_keep data org_info od h1 hc]
  exact ⟨rfl, by rw [finalize_type_code]⟩

def c3_data : OrgDataMapT := [((some "ox", "oxfam"), ⟨"OX", "Oxfam", "ngo"⟩)]

def c3_info : OrgInfo :=
  ⟨"OXFAM Intl", "oxfam", "Ox", some "ox", "un", false, false⟩

theorem add_or_match_org_sticky_type_witness :
    (add_or_match_org c3_data c3_info).2.2 = c3_data ∧
    (add_or_match_org c3_data c3_info).1.type_code = "ngo" :=
  add_or_match_org_sticky_type c3_data c3_info ⟨"OX", "Oxfam", "ngo"⟩
    (by decide) (by decide)

def c2_orgA : OrgInfo := ⟨"Oxfam", "oxfam", "OX", some "ox", "", false, false⟩

def c2_orgB : OrgInfo :=
  ⟨"OXFAM International", "oxfam", "Ox", some "ox", "ngo", false, false⟩

def c2_run1 : OrgInfo × OrgData × OrgDataMapT := add_or_match_org [] c2_orgA

def c2_run2 : OrgInfo × OrgData × OrgDataMapT :=
  add_or_match_org c2_run1.2.2 c2_orgB

/-- C2 counterexample: two identities with the same normalised
(acronym, name) key but where the first carries an empty type code and
the second a non-empty one do NOT end up with identical field values
after each has been passed through add_or_match_org: the first keeps
type code "" while the second keeps "ngo". -/
theorem org_convergence_cex :
    ¬ (c2_run1.1.acronym = c2_run2.1.acronym ∧
       c2_run1.1.canonical_name = c2_run2.1.canonical_name ∧
       c2_run1.1.type_code = c2_run2.1.type_code) := by
  decide

/-- C2 amended: for any two identities sharing the same normalised
(acronym, name) key, sequential add_or_match_org calls always leave both
with identical acronym and identical canonical-name values; their type
codes are identical as well except in exactly one case: when the
earlier identity comes out of its merge with an empty type code and the
later identity carries a non-empty one, in which case the later
identity ends with its own non-empty type code while the earlier
identity's remains empty, so the two differ. -/
theorem add_or_match_org_convergence (d : OrgDataMapT) (A B : OrgInfo)
    (hka : A.normalised_acronym = B.normalised_acronym)
    (hkn : A.normalised_name = B.normalised_name) :
    (add_or_match_org d A).1.acronym =
      (add_or_match_org (add_or_match_org d A).2.2 B).1.acronym ∧
    (add_or_match_org d A).1.canonical_name =
      (add_or_match_org (add_or_match_org d A).2.2 B).1.canonical_name ∧
    ((add_or_match_org d A).1.type_code ≠ "" ∨ B.type_code = "" →
      (add_or_match_org d A).1.type_code =
        (add_or_match_org (add_or_match_org d A).2.2 B).1.type_code) ∧
    ((add_or_match_org d A).1.type_code = "" → B.type_code ≠ "" →
      (add_or_match_org (add_or_match_org d A).2.2 B).1.type_code =
        B.type_code ∧
      (add_or_match_org d A).1.type_code ≠
        (add_or_match_org (add_or_match_org d A).2.2 B).1.type_code) := by
  cases h0 : dget d (A.normalised_acronym, A.normalised_name) with
  | none =>
    have e1 := aomo_eq_new d A h0
    have hd2 : dget (add_or_match_org d A).2.2
        (B.normalised_acronym, B.normalised_name) =
        some ⟨A.acronym, A.canonical_name, A.type_code⟩ := by
      rw [e1, ← hka, ← hkn]
      exact dget_dset_self _ _ _
    have ht1 : (add_or_match_org d A).1.type_code = A.type_code := by
      simp [e1, finalize_type_code]
    by_cases hb : A.type_code = "" ∧ B.type_code ≠ ""
    · have hb2 : (((⟨A.acronym, A.canonical_name, A.type_code⟩ :
          OrgData)).type_code = "" ∧ B.type_code ≠ "") := hb
      have e2 := aomo_eq_found_update _ B _ hd2 hb2
      have ht2 : (add_or_match_org (add_or_match_org d A).2.2 B).1.type_code
          = B.type_code := by
        simp [e2, finalize_type_code]
      refine ⟨by rw [e2, e1]; simp [finalize_acronym],
        by rw [e2, e1]; simp [finalize_canonical], ?_, ?_⟩
      · intro hpre
        rcases hpre with h | h
        · rw [ht1] at h
          exact absurd hb.1 h
        · exact absurd h hb.2
      · intro h1 h2
        refine ⟨ht2, ?_⟩
        rw [ht1, ht2, hb.1]
        exact fun he => hb.2 he.symm
    · have hb2 : ¬ (((⟨A.acronym, A.canonical_name, A.type_code⟩ :
          OrgData)).type_code = "" ∧ B.type_code ≠ "") := hb
      have e2 := aomo_eq_found_keep _ B _ hd2 hb2
      have ht2 : (add_or_match_org (add_or_match_org d A).2.2 B).1.type_code
          = A.type_code := by
        simp [e2, finalize_type_code]
      refine ⟨by rw [e2, e1]; simp [finalize_acronym],
        by rw [e2, e1]; simp [finalize_canonical], ?_, ?_⟩
      · intro _
        rw [ht1, ht2]
      · intro h1 h2
        rw [ht1] at h1
        exact absurd ⟨h1, h2⟩ hb
  | some od =>
    by_cases hc1 : od.type_code = "" ∧ A.type_code ≠ ""
    · have e1 := aomo_eq_found_update d A od h0 hc1
      have hd2 : dget (add_or_match_org d A).2.2
          (B.normalised_acronym, B.normalised_name) =
          some ⟨od.acronym, od.name, A.type_code⟩ := by
        rw [e1, ← hka, ← hkn]
        exact dget_dset_self _ _ _
      have ht1 : (add_or_match_org d A).1.type_code = A.type_code := by
        simp [e1, finalize_type_code]
      have hc2 : ¬ (((⟨od.acronym, od.name, A.type_code⟩ :
          OrgData)).type_code = "" ∧ B.type_code ≠ "") :=
        fun hh => hc1.2 hh.1
      have e2 := aomo_eq_found_keep _ B _ hd2 hc2
      have ht2 : (add_or_match_org (add_or_match_org d A).2.2 B).1.type_code
          = A.type_code := by
        simp [e2, finalize_type_code]
      refine ⟨by rw [e2, e1]; simp [finalize_acronym],
        by rw [e2, e1]; simp [finalize_canonical], ?_, ?_⟩
      · intro _
        rw [ht1, ht2]
      · intro h1 h2
        rw [ht1] at h1
        exact absurd h1 hc1.2
    · have e1 := aomo_eq_found_keep d A od h0 hc1
      have hd2 : dget (add_or_match_org d A).2.2
          (B.normalised_acronym, B.normalised_name) = some od := by
        rw [e1, ← hka, ← hkn]
        exact h0
      have ht1 : (add_or_match_org d A).1.type_code = od.type_code := by
        simp [e1, finalize_type_code]
      by_cases hb2 : od.type_code = "" ∧ B.type_code ≠ ""
      · have e2 := aomo_eq_found_update _ B od hd2 hb2
        have ht2 : (add_or_match_org
            (add_or_match_org d A).2.2 B).1.type_code = B.type_code := by
          simp [e2, finalize_type_code]
        refine ⟨by rw [e2, e1]; simp [finalize_acronym],
          by rw [e2, e1]; simp [finalize_canonical], ?_, ?_⟩
        · intro hpre
          rcases hpre with h | h
          · rw [ht1] at h
            exact absurd hb2.1 h
          · exact absurd h hb2.2
        · intro h1 h2
          refine ⟨ht2, ?_⟩
          rw [ht1, ht2, hb2.1]
          exact fun he => hb2.2 he.symm
      · have e2 := aomo_eq_found_keep _ B od hd2 hb2
        have ht2 : (add_or_match_org
            (add_or_match_org d A).2.2 B).1.type_code = od.type_code := by
          simp [e2, finalize_type_code]
        refine ⟨by rw [e2, e1]; simp [finalize_acronym],
          by rw [e2, e1]; simp [finalize_canonical], ?_, ?_⟩
        · intro _
          rw [ht1, ht2]
        · intro h1 h2
          rw [ht1] at h1
          exact absurd ⟨h1, h2⟩ hb2

theorem add_or_match_org_convergence_witness :
    (add_or_match_org [] c3_info).1.acronym =
      (add_or_match_org (add_or_match_org [] c3_info).2.2 c2_orgB).1.acronym ∧
    (add_or_match_org [] c3_info).1.canonical_name =
      (add_or_match_org
        (add_or_match_org [] c3_info).2.2 c2_orgB).1.canonical_name ∧
    (add_or_match_org [] c3_info).1.type_code =
      (add_or_match_org (add_or_match_org [] c3_info).2.2 c2_orgB).1.type_code := by
  have h := add_or_match_org_convergence [] c3_info c2_orgB (by decide)
    (by decide)
  exact ⟨h.1, h.2.1, h.2.2.1 (Or.inl (by decide))⟩

/-- C10: during reference-table population, a row with an empty
canonical-name field is skipped entirely (none of its six lookup keys is
inserted), and consequently every OrgInfo stored in the populated map
has a non-empty canonical name. -/
theorem populate_empty_name_guard (normalise : String → String)
    (rows : List RefRow) (m : OrgMapT) (row : RefRow)
    (h : row.org_name = "") :
    populate_row normalise m row = m ∧
    ∀ p ∈ populate normalise rows, p.2.canonical_name ≠ "" := by
  constructor
  · simp [populate_row, h]
  · have aux : ∀ (rs : List RefRow) (m0 : OrgMapT),
        (∀ p ∈ m0, p.2.canonical_name ≠ "") →
        ∀ p ∈ rs.foldl (populate_row normalise) m0, p.2.canonical_name ≠ "" := by
      intro rs
      induction rs with
      | nil => intro m0 hm0 p hp; exact hm0 p hp
      | cons r rest ih =>
        intro m0 hm0 p hp
        refine ih (populate_row normalise m0 r) ?_ p hp
        intro q hq
        by_cases hname : r.org_name = ""
        · rw [populate_row, if_pos hname] at hq
          exact hm0 q hq
        · simp only [populate_row, if_neg hname] at hq
          rcases mem_dset _ _ _ q hq with he | hq
          · rw [he]; exact hname
          rcases mem_dset _ _ _ q hq with he | hq
          · rw [he]; exact hname
          rcases mem_dset _ _ _ q hq with he | hq
          · rw [he]; exact hname
          rcases mem_dset _ _ _ q hq with he | hq
          · rw [he]; exact hname
          rcases mem_dset _ _ _ q hq with he | hq
          · rw [he]; exact hname
          rcases mem_dset _ _ _ q hq with he | hq
          · rw [he]; exact hname
          exact hm0 q hq
    intro p hp
    exact aux rows [] (by simp) p hp

def c10_rows : List RefRow :=
  [⟨"", some "AFG", "AC", "pat", "ngo"⟩, ⟨"Org One", none, "", "p2", ""⟩]

theorem populate_empty_name_guard_witness :
    populate_row (fun s => s) [] ⟨"", some "AFG", "AC", "pat", "ngo"⟩ = [] :=
  (populate_empty_name_guard (fun s => s) c10_rows []
    ⟨"", some "AFG", "AC", "pat", "ngo"⟩ rfl).1

/-- C6: get_org_info tries (country, raw), (country, normalised raw),
(None, raw), (None, normalised raw) in that order and returns the first
hit (caching later hits under (country, raw)); when all four miss it
constructs a new incomplete identity with empty acronym and type code
and caches it under (country, raw). -/
theorem get_org_info_lookup_order (normalise : String → String) (m : OrgMapT)
    (org_str location : String) :
    (∀ info, dget m (some location, some org_str) = some info →
      get_org_info normalise m org_str location = (info, m)) ∧
    (dget m (some location, some org_str) = none →
      ∀ info, dget m (some location, some (normalise org_str)) = some info →
      get_org_info normalise m org_str location =
        (info, dset m (some location, some org_str) info)) ∧
    (dget m (some location, some org_str) = none →
      dget m (some location, some (normalise org_str)) = none →
      ∀ info, dget m (none, some org_str) = some info →
      get_org_info normalise m org_str location =
        (info, dset m (some location, some org_str) info)) ∧
    (dget m (some location, some org_str) = none →
      dget m (some location, some (normalise org_str)) = none →
      dget m (none, some org_str) = none →
      ∀ info, dget m (none, some (normalise org_str)) = some info →
      get_org_info normalise m org_str location =
        (info, dset m (some location, some org_str) info)) ∧
    (dget m (some location, some org_str) = none →
      dget m (some location, some (normalise org_str)) = none →
      dget m (none, some org_str) = none →
      dget m (none, some (normalise org_str)) = none →
      get_org_info normalise m org_str location =
        (⟨org_str, normalise org_str, "", some "", "", false, false⟩,
         dset m (some location, some org_str)
           ⟨org_str, normalise org_str, "", some "", "", false, false⟩)) := by
  refine ⟨?_, ?_, ?_, ?_, ?_⟩
  · intro info h1
    simp [get_org_info, h1]
  · intro h1 info h2
    simp [get_org_info, h1, h2]
  · intro h1 h2 info h3
    simp [get_org_info, h1, h2, h3]
  · intro h1 h2 h3 info h4
    simp [get_org_info, h1, h2, h3, h4]
  · intro h1 h2 h3 h4
    simp [get_org_info, h1, h2, h3, h4]

def c6_info : OrgInfo :=
  ⟨"World Health Organization", "world health organization", "WHO",
   some "who", "ino", false, false⟩

def c6_map : OrgMapT := [((some "AFG", some "who"), c6_info)]

def c6_norm : String → String := fun s => if s = "WHO" then "who" else s

theorem get_org_info_lookup_order_witness :
    get_org_info c6_norm c6_map "WHO" "AFG" =
      (c6_info, dset c6_map (some "AFG", some "WHO") c6_info) :=
  (get_org_info_lookup_order c6_norm c6_map "WHO" "AFG").2.1
    (by decide) c6_info (by decide)

/-! ## Claims about get_code_from_name -/

theorem truthy_some_iff (o : Option String) :
    truthy o = true ↔ ∃ s, o = some s ∧ s ≠ "" := by
  cases o with
  | none => simp [truthy]
  | some s => simp [truthy]

/-- C5: a name no longer than MATCH_THRESHOLD that misses both the exact
and the normalised-form lookups is recorded in the unmatched list and
the call returns none without ever invoking the phonetic matcher; when
the name was not already unmatched, it is appended. -/
theorem get_code_from_name_short_guard (normalise : String → String)
    (pm : List String → String → String → Option Nat)
    (lookup : List (String × String)) (unmatched : List String)
    (name : String) (fm : Bool)
    (hlen : name.length ≤ MATCH_THRESHOLD)
    (hexact : truthy (dget lookup name) = false)
    (hnorm : truthy (dget lookup (normalise name)) = false) :
    (get_code_from_name normalise pm lookup unmatched name fm).code = none ∧
    (get_code_from_name normalise pm lookup unmatched name fm).fuzzyInvoked
      = false ∧
    name ∈ (get_code_from_name normalise pm lookup unmatched name fm).unmatched ∧
    (name ∉ unmatched →
      (get_code_from_name normalise pm lookup unmatched name fm).unmatched =
        unmatched ++ [name]) := by
  by_cases hmem : name ∈ unmatched
  · simp [get_code_from_name, hexact, hmem]
  · simp [get_code_from_name, hexact, hmem, hnorm, hlen]

def c5_lookup : List (String × String) :=
  [("international organization", "ino")]

theorem get_code_from_name_short_guard_witness :
    (get_code_from_name (fun s => s) (fun _ _ _ => none) c5_lookup []
      "NGO" true).code = none ∧
    (get_code_from_name (fun s => s) (fun _ _ _ => none) c5_lookup []
      "NGO" true).fuzzyInvoked = false ∧
    (get_code_from_name (fun s => s) (fun _ _ _ => none) c5_lookup []
      "NGO" true).unmatched = ["NGO"] := by
  have h := get_code_from_name_short_guard (fun s => s) (fun _ _ _ => none)
    c5_lookup [] "NGO" true (by decide) (by decide) (by decide)
  exact ⟨h.1, h.2.1, h.2.2.2 (by simp)⟩

/-- C4: under a vocabulary whose codes are all non-empty and a phonetic
matcher that returns in-range indices, a call that resolves after
missing the exact lookup (i.e. via the normalised form or fuzzy
matching) memoizes the raw name, so the repeat call returns the same
code by exact lookup without invoking fuzzy matching; and a failed call
records the name as unmatched, so the repeat call fails immediately
without invoking fuzzy matching. -/
theorem get_code_from_name_memoization (normalise : String → String)
    (pm : List String → String → String → Option Nat)
    (lookup : List (String × String)) (unmatched : List String) (name : String)
    (hvals : ∀ p ∈ lookup, p.2 ≠ "")
    (hpm : ∀ ns a b i, pm ns a b = some i → i < ns.length) :
    (truthy (dget lookup name) = false →
      ∀ c, (get_code_from_name normalise pm lookup unmatched name true).code =
          some c →
        dget (get_code_from_name normalise pm lookup unmatched name
          true).lookup name = some c ∧
        (get_code_from_name normalise pm
          (get_code_from_name normalise pm lookup unmatched name true).lookup
          (get_code_from_name normalise pm lookup unmatched name
            true).unmatched name true).code = some c ∧
        (get_code_from_name normalise pm
          (get_code_from_name normalise pm lookup unmatched name true).lookup
          (get_code_from_name normalise pm lookup unmatched name
            true).unmatched name true).fuzzyInvoked = false) ∧
    ((get_code_from_name normalise pm lookup unmatched name true).code =
        none →
      name ∈ (get_code_from_name normalise pm lookup unmatched name
        true).unmatched ∧
      (get_code_from_name normalise pm
        (get_code_from_name normalise pm lookup unmatched name true).lookup
        (get_code_from_name normalise pm lookup unmatched name
          true).unmatched name true).code = none ∧
      (get_code_from_name normalise pm
        (get_code_from_name normalise pm lookup unmatched name true).lookup
        (get_code_from_name normalise pm lookup unmatched name
          true).unmatched name true).fuzzyInvoked = false) := by
  by_cases h0 : truthy (dget lookup name) = true
  · constructor
    · intro hf
      rw [h0] at hf
      cases hf
    · intro hnone
      have hcode : (get_code_from_name normalise pm lookup unmatched name
          true).code = dget lookup name := by
        simp [get_code_from_name, h0]
      rw [hcode] at hnone
      rw [hnone] at h0
      simp [truthy] at h0
  · have h0f : truthy (dget lookup name) = false := by
      cases h : truthy (dget lookup name)
      · rfl
      · exact absurd h h0
    by_cases hmem : name ∈ unmatched
    · have hr : get_code_from_name normalise pm lookup unmatched name true =
          ⟨none, lookup, unmatched, false⟩ := by
        simp [get_code_from_name, h0f, hmem]
      constructor
      · intro _ c hc
        rw [hr] at hc
        cases hc
      · intro _
        refine ⟨by rw [hr]; exact hmem, ?_, ?_⟩ <;> rw [hr] <;>
          simp [get_code_from_name, h0f, hmem, hr]
    · by_cases h1 : truthy (dget lookup (normalise name)) = true
      · obtain ⟨v, hv, hvne⟩ := (truthy_some_iff _).mp h1
        have htr1 : truthy (some v) = true := by simp [truthy, hvne]
        have hr : get_code_from_name normalise pm lookup unmatched name true =
            ⟨some v, dset lookup name v, unmatched, false⟩ := by
          simp [get_code_from_name, h0f, hmem, hv, htr1]
        constructor
        · intro _ c hc
          rw [hr] at hc
          have hcv : c = v := by
            simpa using hc.symm
          subst hcv
          refine ⟨by rw [hr]; exact dget_dset_self _ _ _, ?_, ?_⟩ <;>
            rw [hr] <;>
            simp [get_code_from_name, dget_dset_self, htr1]
        · intro hnone
          rw [hr] at hnone
          cases hnone
      · have h1f : truthy (dget lookup (normalise name)) = false := by
          cases h : truthy (dget lookup (normalise name))
          · rfl
          · exact absurd h h1
        by_cases hlen : name.length ≤ MATCH_THRESHOLD
        · have hr : get_code_from_name normalise pm lookup unmatched name
              true = ⟨none, lookup, unmatched ++ [name], false⟩ := by
            simp [get_code_from_name, h0f, hmem, h1f, hlen]
          constructor
          · intro _ c hc
            rw [hr] at hc
            cases hc
          · intro _
            refine ⟨by rw [hr]; simp, ?_, ?_⟩ <;> rw [hr] <;>
              simp [get_code_from_name, h0f]
        · cases hcall : pm ((lookup.map Prod.fst).filter
              (fun x => decide (MATCH_THRESHOLD < x.length))) name
              (normalise name) with
          | none =>
            have hr : get_code_from_name normalise pm lookup unmatched name
                true = ⟨none, lookup, unmatched ++ [name], true⟩ := by
              simp [get_code_from_name, h0f, hmem, h1f, hlen, hcall]
            constructor
            · intro _ c hc
              rw [hr] at hc
              cases hc
            · intro _
              refine ⟨by rw [hr]; simp, ?_, ?_⟩ <;> rw [hr] <;>
                simp [get_code_from_name, h0f]
          | some i =>
            have hi : i < ((lookup.map Prod.fst).filter
                (fun x => decide (MATCH_THRESHOLD < x.length))).length :=
              hpm _ _ _ _ hcall
            have hkmem : ((lookup.map Prod.fst).filter
                (fun x => decide (MATCH_THRESHOLD < x.length))).getD i "" ∈
                lookup.map Prod.fst := by
              have hmemf : ((lookup.map Prod.fst).filter
                  (fun x => decide (MATCH_THRESHOLD < x.length))).getD i "" ∈
                  (lookup.map Prod.fst).filter
                    (fun x => decide (MATCH_THRESHOLD < x.length)) := by
                rw [List.getD_eq_getElem _ _ hi]
                exact List.getElem_mem hi
              exact List.mem_of_mem_filter hmemf
            obtain ⟨v, hv⟩ := Option.isSome_iff_exists.mp
              (dget_isSome_of_key _ _ hkmem)
            have hvne : v ≠ "" := hvals _ (dget_mem _ _ _ hv)
            have htr : truthy (some v) = true := by simp [truthy, hvne]
            have hv2 : dget lookup
                (((lookup.map Prod.fst).filter
                  (fun x => decide (MATCH_THRESHOLD < x.length)))[i]?.getD "") =
                some v := by
              simpa using hv
            have hr : get_code_from_name normalise pm lookup unmatched name
                true = ⟨some v,
                  dset (dset lookup name v) (normalise name) v,
                  unmatched, true⟩ := by
              simp [get_code_from_name, h0f, hmem, h1f, hlen, hcall, hv2, htr]
            have hget : dget (dset (dset lookup name v) (normalise name) v)
                name = some v := by
              rw [dget_dset]
              by_cases hnc : name = normalise name
              · rw [if_pos hnc]
              · rw [if_neg hnc]
                exact dget_dset_self _ _ _
            constructor
            · intro _ c hc
              rw [hr] at hc
              have hcv : c = v := by
                simpa using hc.symm
              subst hcv
              refine ⟨by rw [hr]; exact hget, ?_, ?_⟩ <;> rw [hr] <;>
                simp [get_code_from_name, hget, htr]
            · intro hnone
              rw [hr] at hnone
              cases hnone

def c4_lookup : List (String × String) :=
  [("education cluster", "EDU")]

def c4_norm : String → String :=
  fun s => if s = "Education Cluster" then "education cluster" else s

def c4_pm : List String → String → String → Option Nat :=
  fun ns _ _ => if 0 < ns.length then some 0 else none

theorem get_code_from_name_memoization_witness :
    dget (get_code_from_name c4_norm c4_pm c4_lookup [] "Education Cluster"
      true).lookup "Education Cluster" = some "EDU" ∧
    (get_code_from_name c4_norm c4_pm
      (get_code_from_name c4_norm c4_pm c4_lookup [] "Education Cluster"
        true).lookup
      (get_code_from_name c4_norm c4_pm c4_lookup [] "Education Cluster"
        true).unmatched "Education Cluster" true).code = some "EDU" ∧
    (get_code_from_name c4_norm c4_pm
      (get_code_from_name c4_norm c4_pm c4_lookup [] "Education Cluster"
        true).lookup
      (get_code_from_name c4_norm c4_pm c4_lookup [] "Education Cluster"
        true).unmatched "Education Cluster" true).fuzzyInvoked = false := by
  have hpm : ∀ ns a b i, c4_pm ns a b = some i → i < ns.length := by
    intro ns a b i h
    by_cases hl : 0 < ns.length
    · simp [c4_pm, hl] at h
      omega
    · simp [c4_pm, hl] at h
  have h := get_code_from_name_memoization c4_norm c4_pm c4_lookup []
    "Education Cluster" (by decide) hpm
  exact h.1 (by decide) "EDU" (by decide)

/-! ## Claims about the date tracking -/

theorem track_start_date_eq (parse : String → Option PDate) (a : PDate)
    (v : String) :
    track_start_date parse a v =
      match start_date_filter parse v with
      | none => a
      | some d => minStep a d := by
  unfold track_start_date start_date_filter minStep
  by_cases hv : v = ""
  · rw [if_pos hv, if_pos hv]
  · rw [if_neg hv, if_neg hv]
    cases parse v with
    | none => rfl
    | some d =>
      by_cases hy : d.year < 2000 <;> simp [hy]

theorem track_end_date_eq (parse : String → Option PDate) (a : PDate)
    (v : String) :
    track_end_date parse a v =
      match end_date_filter parse v with
      | none => a
      | some d => maxStep a d := by
  unfold track_end_date end_date_filter maxStep
  by_cases hv : v = ""
  · rw [if_pos hv, if_pos hv]
  · rw [if_neg hv, if_neg hv]
    cases parse v with
    | none => rfl
    | some d => rfl

theorem foldl_track_start (parse : String → Option PDate)
    (vals : List String) : ∀ a,
    vals.foldl (track_start_date parse) a =
      (valid_start_dates parse vals).foldl minStep a := by
  induction vals with
  | nil => intro a; rfl
  | cons v rest ih =>
    intro a
    rw [List.foldl_cons, track_start_date_eq]
    show _ = ((v :: rest).filterMap (start_date_filter parse)).foldl minStep a
    rw [List.filterMap_cons]
    cases hfv : start_date_filter parse v with
    | none => exact ih a
    | some d => exact ih (minStep a d)

theorem foldl_track_end (parse : String → Option PDate)
    (vals : List String) : ∀ a,
    vals.foldl (track_end_date parse) a =
      (parseable_end_dates parse vals).foldl maxStep a := by
  induction vals with
  | nil => intro a; rfl
  | cons v rest ih =>
    intro a
    rw [List.foldl_cons, track_end_date_eq]
    show _ = ((v :: rest).filterMap (end_date_filter parse)).foldl maxStep a
    rw [List.filterMap_cons]
    cases hfv : end_date_filter parse v with
    | none => exact ih a
    | some d => exact ih (maxStep a d)

theorem foldl_minStep_absd (l : List PDate) : ∀ a : PDate,
    (l.foldl minStep a).absd ≤ a.absd ∧
    ∀ d ∈ l, (l.foldl minStep a).absd ≤ d.absd := by
  induction l with
  | nil =>
    intro a
    exact ⟨le_refl _, by simp⟩
  | cons x xs ih =>
    intro a
    have h := ih (minStep a x)
    have hax : (minStep a x).absd ≤ a.absd := by
      unfold minStep
      split <;> omega
    have hxx : (minStep a x).absd ≤ x.absd := by
      unfold minStep
      split <;> omega
    simp only [List.foldl_cons]
    refine ⟨le_trans h.1 hax, ?_⟩
    intro d hd
    rcases List.mem_cons.mp hd with h' | h'
    · rw [h']
      exact le_trans h.1 hxx
    · exact h.2 d h'

theorem foldl_maxStep_absd (l : List PDate) : ∀ a : PDate,
    a.absd ≤ (l.foldl maxStep a).absd ∧
    ∀ d ∈ l, d.absd ≤ (l.foldl maxStep a).absd := by
  induction l with
  | nil =>
    intro a
    exact ⟨le_refl _, by simp⟩
  | cons x xs ih =>
    intro a
    have h := ih (maxStep a x)
    have hax : a.absd ≤ (maxStep a x).absd := by
      unfold maxStep
      split <;> omega
    have hxx : x.absd ≤ (maxStep a x).absd := by
      unfold maxStep
      split <;> omega
    simp only [List.foldl_cons]
    refine ⟨le_trans hax h.1, ?_⟩
    intro d hd
    rcases List.mem_cons.mp hd with h' | h'
    · rw [h']
      exact le_trans hxx h.1
    · exact h.2 d h'

/-- C7 counterexample: the concrete parse function used to exhibit the
missing pre-2000 guard on end dates. -/
def parse0 : String → Option PDate :=
  fun s => if s = "1995-06-01" then some ⟨19950601, 1995⟩ else none

/-- C7 counterexample: an end-date column holding the parseable
pre-2000 value "1995-06-01" moves the tracked latest end date, while
the claimed rule (ignore pre-2000 values) would leave it at
default_date: the code's tracking and the claimed maximum disagree. -/
theorem end_date_pre2000_cex :
    latest_end_date parse0 ["1995-06-01"] ≠
      claimed_latest_end parse0 ["1995-06-01"] := by
  decide

/-- C7 amended: the tracked earliest start date is the running minimum
over exactly the non-empty, parseable, year-2000-or-later start values,
while the tracked latest end date is the running maximum over exactly
the non-empty, parseable end values -- the pre-2000 guard applies only
to start dates.  The tracked values bound every participating value. -/
theorem date_tracking_minmax (parse : String → Option PDate)
    (starts ends : List String) :
    earliest_start_date parse starts =
      (valid_start_dates parse starts).foldl minStep default_enddate ∧
    latest_end_date parse ends =
      (parseable_end_dates parse ends).foldl maxStep default_date ∧
    (∀ d ∈ valid_start_dates parse starts,
      (earliest_start_date parse starts).absd ≤ d.absd) ∧
    (∀ d ∈ parseable_end_dates parse ends,
      d.absd ≤ (latest_end_date parse ends).absd) := by
  have h1 := foldl_track_start parse starts default_enddate
  have h2 := foldl_track_end parse ends default_date
  refine ⟨h1, h2, ?_, ?_⟩
  · intro d hd
    rw [earliest_start_date, h1]
    exact (foldl_minStep_absd (valid_start_dates parse starts)
      default_enddate).2 d hd
  · intro d hd
    rw [latest_end_date, h2]
    exact (foldl_maxStep_absd (parseable_end_dates parse ends)
      default_date).2 d hd

def parse1 : String → Option PDate :=
  fun s => if s = "2024-05-05" then some ⟨20240505, 2024⟩ else none

theorem date_tracking_minmax_witness :
    (⟨20240505, 2024⟩ : PDate).absd ≤
      (latest_end_date parse1 ["2024-05-05"]).absd :=
  (date_tracking_minmax parse1 [] ["2024-05-05"]).2.2.2
    ⟨20240505, 2024⟩ (by decide)

/-! ## Claims about process_country -/

theorem oor_none {ν : Type} (o : Option ν) : oor o none = o := by
  cases o <;> rfl

theorem find?_append {α : Type} (p : α → Bool) (l1 l2 : List α) :
    List.find? p (l1 ++ l2) = oor (List.find? p l1) (List.find? p l2) := by
  induction l1 with
  | nil => simp [oor]
  | cons a l ih =>
    cases h : p a with
    | true => simp [List.find?, h, oor]
    | false => simp [List.find?, h, ih]

theorem dget_foldl_dset {κ ν : Type} [DecidableEq κ] (l : List (κ × ν)) :
    ∀ (d : List (κ × ν)) (k : κ),
    dget (l.foldl (fun d p => dset d p.1 p.2) d) k =
      oor (lastWins l k) (dget d k) := by
  induction l with
  | nil =>
    intro d k
    simp [lastWins, oor]
  | cons p rest ih =>
    intro d k
    rw [List.foldl_cons, ih]
    unfold lastWins
    rw [List.reverse_cons, find?_append]
    cases h : List.find? (fun q => decide (q.1 = k)) rest.reverse with
    | some q => simp [oor, h]
    | none =>
      simp only [h, oor]
      by_cases hp : p.1 = k
      · rw [dget_dset, if_pos hp.symm]
        simp [List.find?, hp, oor]
      · rw [dget_dset, if_neg (fun hh => hp hh.symm)]
        simp [List.find?, hp, oor]

theorem dget_none_not_key {κ ν : Type} [DecidableEq κ] (d : List (κ × ν))
    (k : κ) (h : dget d k = none) : k ∉ d.map Prod.fst := by
  intro hk
  have := dget_isSome_of_key d k hk
  rw [h] at this
  cases this

theorem map_fst_dset {κ ν : Type} [DecidableEq κ] (d : List (κ × ν)) (k : κ)
    (v : ν) :
    (dset d k v).map Prod.fst =
      if (dget d k).isSome then d.map Prod.fst
      else d.map Prod.fst ++ [k] := by
  induction d with
  | nil => simp [dset, dget]
  | cons p rest ih =>
    by_cases hp : p.1 = k
    · simp [dset, dget, hp]
    · simp [dset, dget, hp, ih]
      split <;> simp

theorem nodup_fst_dset {κ ν : Type} [DecidableEq κ] (d : List (κ × ν)) (k : κ)
    (v : ν) (h : (d.map Prod.fst).Nodup) :
    ((dset d k v).map Prod.fst).Nodup := by
  rw [map_fst_dset]
  cases hd : dget d k with
  | some v0 => simpa [hd] using h
  | none =>
    have hk : k ∉ d.map Prod.fst := dget_none_not_key d k hd
    simp [hd, List.nodup_append, h, hk]

theorem nodup_foldl_dset {κ ν : Type} [DecidableEq κ] (l : List (κ × ν)) :
    ∀ (d : List (κ × ν)), (d.map Prod.fst).Nodup →
    ((l.foldl (fun d p => dset d p.1 p.2) d).map Prod.fst).Nodup := by
  induction l with
  | nil => intro d hd; exact hd
  | cons p rest ih =>
    intro d hd
    rw [List.foldl_cons]
    exact ih _ (nodup_fst_dset d p.1 p.2 hd)

/-- C1: the production pass builds its output map keyed by the 9-tuple
OutKey assembled in process_row; looking up any key in the built map
yields exactly the record of the last processed row that produced that
key (none when no row did), so the map holds exactly one record per
distinct key, and its keys are pairwise distinct. -/
theorem process_country_dedup (ctx : ProcCtx) (om : OrgMapT)
    (rows : List PRow) :
    (∀ k, dget (process_country_rows ctx om rows).1 k =
      lastWins (process_trace ctx om rows).1 k) ∧
    ((process_country_rows ctx om rows).1.map Prod.fst).Nodup := by
  constructor
  · intro k
    show dget ((process_trace ctx om rows).1.foldl
      (fun d p => dset d p.1 p.2) []) k = _
    rw [dget_foldl_dset]
    simp [dget, oor_none]
  · show ((((process_trace ctx om rows).1.foldl
      (fun d p => dset d p.1 p.2) []) : List (OutKey × Row)).map
        Prod.fst).Nodup
    exact nodup_foldl_dset _ [] (by simp)

/-- C8 amended: every retained preprocessed row, errored or not, yields
exactly one (key, record) pair in the production trace, in order, and
the record's error field is the row's error list joined with a pipe --
errored rows are not excluded from the output. -/
theorem process_rows_error_field (ctx : ProcCtx) (om : OrgMapT)
    (rows : List PRow) :
    (process_trace ctx om rows).1.map (fun p => p.2.error) =
      rows.map (fun r => String.intercalate "|" r.error) := by
  induction rows generalizing om with
  | nil => rfl
  | cons r rest ih =>
    simp only [process_trace, List.map_cons]
    rw [ih]
    rfl

def c8_ctx : ProcCtx :=
  { normalise := fun s => s
    admResolve := fun _ => ⟨["Kabul", ""], ["AF01", ""], ["Kabul", ""], 1, []⟩
    orgTypeDesc := fun _ => ""
    sectorName := fun _ => ""
    hrp := true
    gho := true
    countryiso3 := "AFG"
    start_date_str := "2024-01-01"
    end_date_str := "2024-12-31"
    dataset_id := "ds1"
    resource_id := "rs1" }

def c8_row : PRow := ⟨"Some Org", "SO", "", [], ["No sector"]⟩

/-- C8 counterexample: a single retained row flagged with the error
"No sector" still produces an OutputRecord in the production map -- the
map is non-empty and its one record carries the error text -- refuting
the claim that errored rows contribute no record. -/
theorem errored_row_output_cex :
    (process_country_rows c8_ctx [] [c8_row]).1.map (fun p => p.2.error) =
      ["No sector"] ∧
    (process_country_rows c8_ctx [] [c8_row]).1 ≠ [] := by
  constructor
  · decide
  · decide

/-! ## Claims about the per-country loop -/

theorem process_loop_append {σ : Type} (pre : σ → String → PreOutcome σ)
    (gi : String → Option DSInfo) (tp : Option (List String))
    (l1 l2 : List String) : ∀ s : σ,
    process_loop pre gi tp s (l1 ++ l2) =
      ((process_loop pre gi tp (process_loop pre gi tp s l1).1 l2).1,
       (process_loop pre gi tp s l1).2.1 ++
         (process_loop pre gi tp (process_loop pre gi tp s l1).1 l2).2.1,
       (process_loop pre gi tp s l1).2.2 ++
         (process_loop pre gi tp (process_loop pre gi tp s l1).1 l2).2.2) := by
  induction l1 with
  | nil =>
    intro s
    simp [process_loop]
  | cons c cs ih =>
    intro s
    by_cases hp : passes tp c = true
    · cases hgi : gi c with
      | none =>
        simp only [List.cons_append, process_loop, hp, if_true, hgi]
        exact ih s
      | some di =>
        cases hpre : pre s c with
        | ok b s1 =>
          cases b with
          | true =>
            simp only [List.cons_append, process_loop, hp, if_true, hgi, hpre,
              Prod.mk.injEq]
            refine ⟨?_, ?_, ?_⟩ <;> simp only [List.append_eq] <;>
              rw [ih s1]
          | false =>
            simp only [List.cons_append, process_loop, hp, if_true, hgi, hpre]
            exact ih s1
        | exn m s1 =>
          simp only [List.cons_append, process_loop, hp, if_true, hgi, hpre,
            Prod.mk.injEq]
          refine ⟨?_, ?_, ?_⟩ <;> simp only [List.append_eq] <;>
            rw [ih s1]
    · simp only [List.cons_append, process_loop, hp, if_false]
      exact ih s

theorem process_loop_included_keys {σ : Type} (pre : σ → String → PreOutcome σ)
    (gi : String → Option DSInfo) (tp : Option (List String))
    (cs : List String) : ∀ (s : σ) (p : String × DSInfo),
    p ∈ (process_loop pre gi tp s cs).2.2 → p.1 ∈ cs := by
  induction cs with
  | nil =>
    intro s p hp
    simp [process_loop] at hp
  | cons c cs ih =>
    intro s p hp
    by_cases hpass : passes tp c = true
    · cases hgi : gi c with
      | none =>
        rw [process_loop, if_pos hpass, hgi] at hp
        exact List.mem_cons_of_mem _ (ih s p hp)
      | some di =>
        cases hpre : pre s c with
        | ok b s1 =>
          cases b with
          | true =>
            rw [process_loop, if_pos hpass, hgi, hpre] at hp
            simp only [List.mem_cons] at hp
            rcases hp with h | h
            · rw [h]
              exact List.mem_cons_self _ _
            · exact List.mem_cons_of_mem _ (ih s1 p h)
          | false =>
            rw [process_loop, if_pos hpass, hgi, hpre] at hp
            exact List.mem_cons_of_mem _ (ih s1 p hp)
        | exn m s1 =>
          rw [process_loop, if_pos hpass, hgi, hpre] at hp
          exact List.mem_cons_of_mem _ (ih s1 p hp)
    · rw [process_loop, if_neg hpass] at hp
      exact List.mem_cons_of_mem _ (ih s p hp)

/-- C9: when preprocessing country c (reached after the prefix cs1 of
the sheet's country list) raises an exception, the loop records a
diagnostic attributed to c's dataset, c is absent from the
iso3-to-datasetinfo map handed to the production pass, and every
remaining country is still processed (from the state the failed call
left behind) exactly as it otherwise would be -- the exception never
aborts the loop. -/
theorem preprocess_failure_isolation {σ : Type}
    (pre : σ → String → PreOutcome σ) (getinfo : String → Option DSInfo)
    (tp : Option (List String)) (s s2 : σ) (cs1 cs2 : List String)
    (c msg : String) (di : DSInfo)
    (hpass : passes tp c = true) (hinfo : getinfo c = some di)
    (hpre : pre (process_loop pre getinfo tp s cs1).1 c =
      PreOutcome.exn msg s2)
    (hc1 : c ∉ cs1) (hc2 : c ∉ cs2) :
    (process_loop pre getinfo tp s (cs1 ++ c :: cs2)).2.1 =
      (process_loop pre getinfo tp s cs1).2.1 ++
        (di.dataset, msg) :: (process_loop pre getinfo tp s2 cs2).2.1 ∧
    (process_loop pre getinfo tp s (cs1 ++ c :: cs2)).2.2 =
      (process_loop pre getinfo tp s cs1).2.2 ++
        (process_loop pre getinfo tp s2 cs2).2.2 ∧
    c ∉ ((process_loop pre getinfo tp s (cs1 ++ c :: cs2)).2.2.map
      Prod.fst) := by
  have hstep : process_loop pre getinfo tp
      (process_loop pre getinfo tp s cs1).1 (c :: cs2) =
      ((process_loop pre getinfo tp s2 cs2).1,
       (di.dataset, msg) :: (process_loop pre getinfo tp s2 cs2).2.1,
       (process_loop pre getinfo tp s2 cs2).2.2) := by
    rw [process_loop, if_pos hpass, hinfo, hpre]
  have hfull := process_loop_append pre getinfo tp cs1 (c :: cs2) s
  rw [hstep] at hfull
  refine ⟨by rw [hfull], by rw [hfull], ?_⟩
  rw [hfull]
  intro hmem
  simp only [List.map_append, List.mem_append] at hmem
  rcases hmem with h | h
  · obtain ⟨p, hp, hpc⟩ := List.mem_map.mp h
    rw [← hpc] at hc1
    exact hc1 (process_loop_included_keys pre getinfo tp cs1 s p hp)
  · obtain ⟨p, hp, hpc⟩ := List.mem_map.mp h
    rw [← hpc] at hc2
    exact hc2 (process_loop_included_keys pre getinfo tp cs2 s2 p hp)

def c9_pre : Nat → String → PreOutcome Nat := fun s c =>
  if c = "SDN" then PreOutcome.exn "boom" s else PreOutcome.ok true (s + 1)

def c9_info : String → Option DSInfo := fun c => some ⟨c ++ "-ds"⟩

theorem preprocess_failure_isolation_witness :
    (process_loop c9_pre c9_info none 0 (["AFG"] ++ "SDN" :: ["YEM"])).2.1 =
      (process_loop c9_pre c9_info none 0 ["AFG"]).2.1 ++
        ("SDN-ds", "boom") :: (process_loop c9_pre c9_info none 1 ["YEM"]).2.1 := by
  have h := preprocess_failure_isolation c9_pre c9_info none 0 1 ["AFG"]
    ["YEM"] "SDN" "boom" ⟨"SDN-ds"⟩ (by decide) (by decide) (by decide)
    (by decide) (by decide)
  exact h.1

end OpPresence
